import Mathlib

/-!
Verification of the 2025 MLB Replay Simulator engine.

The definitions below are a shallow embedding of `src/project/engine.py`,
`src/project/classes.py` and `src/project/project.py`.  Python floats are
modelled as rationals, the three-slot base list `[first, second, third]` as a
triple of booleans, and `random.random()` draws as explicit rational
arguments (a stream `Nat -> Rat` indexed by the order in which the source
calls the generator).  Functions named `spec_*` are instead modelled from the
natural-language specification and are compared with the source embedding in
refinement theorems.
-/

namespace MLBReplay

/-- Batter record (classes.py, class Batter): only the fields the engine
reads (`obp`, `ops`) and the precomputed `overall` rating used for lineup
selection. -/
structure Batter where
  name : String
  obp : ℚ
  ops : ℚ
  overall : ℚ
deriving DecidableEq

/-- Pitcher record (classes.py, class Pitcher): only the fields the engine
reads (`whip`) and the precomputed `overall` rating used for rotation
selection. -/
structure Pitcher where
  name : String
  whip : ℚ
  overall : ℚ
deriving DecidableEq

/-- The three base slots `[first, second, third]` of engine.py
(`bases = [0, 0, 0]`), occupancy as booleans. -/
abbrev Bases := Bool × Bool × Bool

/-- Python `sum(bases)` (engine.py line 137): number of occupied bases. -/
def sum_bases (b : Bases) : ℕ :=
  (cond b.1 1 0) + (cond b.2.1 1 0) + (cond b.2.2 1 0)

/-- engine.py `advance_runners` (lines 148-205), as a value-in/value-out
function: given the bases, the number of bases gained and the walk flag,
returns the new bases and the runs scored on the play.  The sequential
in-place mutations of the Python code are translated by sequential `let`
bindings in the same order (third base, then second, then first, then the
batter placement). -/
def advance_runners (bases : Bases) (hits : ℕ) (is_walk : Bool) : Bases × ℕ :=
  if is_walk then
    -- walk branch (lines 161-168): forced advancement only
    if bases.1 then
      if bases.2.1 then
        if bases.2.2 then ((true, true, true), 1)
        else ((true, true, true), 0)
      else ((true, true, bases.2.2), 0)
    else ((true, bases.2.1, bases.2.2), 0)
  else
    -- hit branch (lines 170-198)
    let runs1 : ℕ := if bases.2.2 then 1 else 0
    let third1 : Bool := if bases.2.2 then false else bases.2.2
    let runs2 : ℕ := if bases.2.1 then (if 2 ≤ hits then runs1 + 1 else runs1) else runs1
    let third2 : Bool := if bases.2.1 then (if 2 ≤ hits then third1 else true) else third1
    let second2 : Bool := if bases.2.1 then false else bases.2.1
    let runs3 : ℕ := if bases.1 then (if hits = 3 then runs2 + 1 else runs2) else runs2
    let third3 : Bool :=
      if bases.1 then (if hits = 3 then third2 else if hits = 2 then true else third2)
      else third2
    let second3 : Bool :=
      if bases.1 then (if hits = 3 then second2 else if hits = 2 then second2 else true)
      else second2
    let first3 : Bool := if bases.1 then false else bases.1
    -- batter placement (lines 193-198)
    let first4 : Bool := if hits = 1 then true else first3
    let second4 : Bool := if hits = 1 then second3 else if hits = 2 then true else second3
    let third4 : Bool :=
      if hits = 1 then third3 else if hits = 2 then third3 else
      if hits = 3 then true else third3
    ((first4, second4, third4), runs3)

/-- The base/run effect of one at-bat result, from the dispatch in
engine.py `play_half_inning` (lines 121-142): walks and hits go through
`advance_runners`, a home run scores all runners plus the batter and empties
the bases, any other result (in particular an out) leaves the bases alone and
scores nothing. -/
def apply_result (result : String) (bases : Bases) : Bases × ℕ :=
  if result = ("WALK") then advance_runners bases 1 true
  else if result = ("SINGLE") then advance_runners bases 1 false
  else if result = ("DOUBLE") then advance_runners bases 2 false
  else if result = ("TRIPLE") then advance_runners bases 3 false
  else if result = ("HR") then ((false, false, false), sum_bases bases + 1)
  else (bases, 0)

/-- Modelled from the spec, section 4.3, hit of N bases: runner on third
always scores; runner on second scores if N ≥ 2, otherwise advances to
third; runner on first scores if N = 3, advances to third if N = 2,
advances to second if N = 1; the batter is then placed on base N. -/
def spec_hit (b : Bases) (N : ℕ) : Bases × ℕ :=
  ((decide (N = 1),
    decide (N = 2) || (b.1 && decide (N = 1)),
    decide (N = 3) || (b.2.1 && decide (N = 1)) || (b.1 && decide (N = 2))),
   (cond b.2.2 1 0) + (if 2 ≤ N then cond b.2.1 1 0 else 0) +
     (if N = 3 then cond b.1 1 0 else 0))

/-- Modelled from the spec, section 4.3, walk: batter takes first;
first to second only if first was occupied; second to third only if first
and second were both occupied; third scores only if the bases were loaded;
no other slot changes. -/
def spec_walk (b : Bases) : Bases × ℕ :=
  ((true, b.1 || b.2.1, (b.1 && b.2.1) || b.2.2),
   if b.1 && b.2.1 && b.2.2 then 1 else 0)

/-- C1: for every base occupancy, a single, double and triple produce exactly
the spec transition for a hit worth 1, 2 and 3 bases respectively, a home run
scores all occupied bases plus the batter and resets the bases, and in
particular a double with only first occupied yields bases [0,1,1] and no
runs. -/
theorem hit_transitions_match_spec :
    (∀ b : Bases,
      apply_result ("SINGLE") b = spec_hit b 1 ∧
      apply_result ("DOUBLE") b = spec_hit b 2 ∧
      apply_result ("TRIPLE") b = spec_hit b 3 ∧
      apply_result ("HR") b = ((false, false, false), sum_bases b + 1)) ∧
    apply_result ("DOUBLE") (true, false, false) = ((false, true, true), 0) := by
  constructor
  · decide
  · decide

/-- C2: for every base occupancy a walk applies forced advancement exactly as
the spec states it, and in particular [1,0,0] plus a walk gives [1,1,0] with
no runs while loaded bases plus a walk stay loaded with exactly one run. -/
theorem walk_transitions_match_spec :
    (∀ b : Bases, advance_runners b 1 true = spec_walk b) ∧
    apply_result ("WALK") (true, false, false) = ((true, true, false), 0) ∧
    apply_result ("WALK") (true, true, true) = ((true, true, true), 1) := by
  refine ⟨by decide, by decide, by decide⟩

/-- C4: for every base occupancy and every at-bat result string the occupied
count is at most 3, the occupied count after the play is at most the count
before plus one, and the runs scored on the play plus the runners left on
base are at most the runners on base before the play plus one (the batter). -/
theorem base_invariants (result : String) (b : Bases) :
    sum_bases b ≤ 3 ∧
    sum_bases (apply_result result b).1 ≤ sum_bases b + 1 ∧
    (apply_result result b).2 + sum_bases (apply_result result b).1 ≤ sum_bases b + 1 := by
  unfold apply_result
  split_ifs <;> revert b <;> decide

/-- engine.py `AVG_WHIP` (line 222): the league-average WHIP constant. -/
def AVG_WHIP : ℚ := 1.30

/-- engine.py `WHIP_COEFF` (line 223): dampener on the WHIP difference. -/
def WHIP_COEFF : ℚ := 0.40

/-- engine.py `DEFENSE_DIVISOR` (line 224). -/
def DEFENSE_DIVISOR : ℚ := 300

/-- engine.py `WALK_RATE` (line 227). -/
def WALK_RATE : ℚ := 0.225

/-- engine.py `SINGLE_RATE` (line 229). -/
def SINGLE_RATE : ℚ := 0.755

/-- engine.py `XBH_RATE` (line 230). -/
def XBH_RATE : ℚ := 0.92

/-- engine.py `TRIPLE_CHANCE` (line 231). -/
def TRIPLE_CHANCE : ℚ := 0.15

/-- engine.py `ISO_MULTIPLIER` (line 234). -/
def ISO_MULTIPLIER : ℚ := 2.5

/-- engine.py `simulate_at_bat` lines 237-242: the fatigue-adjusted, clamped
on-base probability. -/
def adjusted_obp (batter : Batter) (pitcher : Pitcher) (fatigue : ℚ) : ℚ :=
  let current_whip := pitcher.whip + fatigue
  let whip_diff := current_whip - AVG_WHIP
  max 0.100 (min 0.700 (batter.obp + whip_diff * WHIP_COEFF))

/-- engine.py `simulate_at_bat` line 248: the defense save chance, floored at
0 but with no upper clamp. -/
def defense_save_chance (defense_rating : ℚ) : ℚ :=
  max 0 (defense_rating / DEFENSE_DIVISOR)

/-- engine.py `simulate_at_bat` (lines 207-274).  The successive
`random.random()` calls of the source are the values `rs 0`, `rs 1`, ... of
the draw stream; the function returns the outcome string together with the
number of draws consumed (the source consults at most four). -/
def simulate_at_bat (batter : Batter) (pitcher : Pitcher)
    (defense_rating fatigue : ℚ) (rs : ℕ → ℚ) : String × ℕ :=
  if rs 0 > adjusted_obp batter pitcher fatigue then (("OUT"), 1)
  else if rs 1 < defense_save_chance defense_rating then (("OUT"), 2)
  else
    let type_roll := rs 2
    if type_roll < WALK_RATE then (("WALK"), 3)
    else if type_roll < SINGLE_RATE then (("SINGLE"), 3)
    else if type_roll < XBH_RATE then
      (if rs 3 < TRIPLE_CHANCE then ("TRIPLE") else ("DOUBLE"), 4)
    else
      let iso := batter.ops - batter.obp
      let power_threshold := 1.0 - iso * ISO_MULTIPLIER
      (if rs 3 > power_threshold then ("HR") else ("DOUBLE"), 4)

/-- Modelled from the spec, section 4.2: the at-bat pipeline with its five
named draws r1..r5 (r4 resolves triple against double in the extra-base-hit
branch, r5 the power check; the two branches are mutually exclusive, so at
most one of the two is consulted on any run). -/
def spec_at_bat (batter : Batter) (pitcher : Pitcher)
    (defense_rating fatigue r1 r2 r3 r4 r5 : ℚ) : String :=
  let effective_whip := pitcher.whip + fatigue
  let whip_diff := effective_whip - 1.30
  let adj := max 0.100 (min 0.700 (batter.obp + whip_diff * 0.40))
  if r1 > adj then ("OUT")
  else if r2 < max 0 (defense_rating / 300) then ("OUT")
  else if r3 < 0.225 then ("WALK")
  else if r3 < 0.755 then ("SINGLE")
  else if r3 < 0.92 then (if r4 < 0.15 then ("TRIPLE") else ("DOUBLE"))
  else
    (if r5 > 1.0 - (batter.ops - batter.obp) * 2.5 then ("HR") else ("DOUBLE"))

/-- The draw stream carrying the five named draws of the spec pipeline: the
fourth generator call of the source resolves the triple check when the hit
type roll fell in the extra-base-hit band and the power check otherwise, so
it carries r4 in the former case and r5 in the latter. -/
def draws5 (r1 r2 r3 r4 r5 : ℚ) : ℕ → ℚ
  | 0 => r1
  | 1 => r2
  | 2 => r3
  | _ + 3 => if r3 < XBH_RATE then r4 else r5

/-- C3: for all ratings, fatigue and draws, the source at-bat resolver
returns exactly the outcome of the spec pipeline (adjusted-obp clamp
included), and when the first draw exceeds the adjusted on-base probability
it returns OUT having consumed only that one draw. -/
theorem at_bat_matches_spec (batter : Batter) (pitcher : Pitcher)
    (defense_rating fatigue r1 r2 r3 r4 r5 : ℚ) :
    (simulate_at_bat batter pitcher defense_rating fatigue
        (draws5 r1 r2 r3 r4 r5)).1 =
      spec_at_bat batter pitcher defense_rating fatigue r1 r2 r3 r4 r5 ∧
    (r1 > adjusted_obp batter pitcher fatigue →
      simulate_at_bat batter pitcher defense_rating fatigue
        (draws5 r1 r2 r3 r4 r5) = (("OUT"), 1)) := by
  constructor
  · simp only [simulate_at_bat, spec_at_bat, adjusted_obp, defense_save_chance,
      AVG_WHIP, WHIP_COEFF, DEFENSE_DIVISOR, WALK_RATE, SINGLE_RATE, XBH_RATE,
      TRIPLE_CHANCE, ISO_MULTIPLIER, draws5]
    split_ifs <;> rfl
  · intro h
    simp only [simulate_at_bat, draws5, if_pos h]

/-- C10: the defense save chance has no upper clamp: against a defense rating
of at least 300 every draw sequence in [0,1) resolves to OUT (the hit-type
branch is unreachable), a negative defense rating is floored to a save chance
of exactly 0, and the bound is tight at a concrete input. -/
theorem defense_save_chance_unclamped :
    (∀ (batter : Batter) (pitcher : Pitcher) (defense_rating fatigue : ℚ)
        (rs : ℕ → ℚ),
      (300 ≤ defense_rating ∧ ∀ n, 0 ≤ rs n ∧ rs n < 1) →
      (simulate_at_bat batter pitcher defense_rating fatigue rs).1 = ("OUT")) ∧
    (∀ defense_rating : ℚ, defense_rating < 0 →
      defense_save_chance defense_rating = 0) ∧
    (simulate_at_bat (Batter.mk ("B") 0.3 0.7 50) (Pitcher.mk ("P") 1.3 50)
        300 0 (fun _ => 1/2)).1 = ("OUT") := by
  refine ⟨?_, ?_, ?_⟩
  · rintro batter pitcher defense_rating fatigue rs ⟨hd, hrs⟩
    have h1 : 1 ≤ defense_save_chance defense_rating := by
      have : (1 : ℚ) ≤ defense_rating / 300 := by
        rw [le_div_iff₀ (by norm_num : (0:ℚ) < 300)]
        linarith
      calc (1 : ℚ) ≤ defense_rating / 300 := this
        _ ≤ defense_save_chance defense_rating := by
            simp only [defense_save_chance, DEFENSE_DIVISOR]
            exact le_max_right 0 _
    have hlt : rs 1 < defense_save_chance defense_rating :=
      lt_of_lt_of_le (hrs 1).2 h1
    by_cases h0 : rs 0 > adjusted_obp batter pitcher fatigue
    · simp only [simulate_at_bat, if_pos h0]
    · simp only [simulate_at_bat, if_neg h0, if_pos hlt]
  · intro defense_rating hneg
    simp only [defense_save_chance, DEFENSE_DIVISOR]
    rw [max_eq_left]
    apply le_of_lt
    exact div_neg_of_neg_of_pos hneg (by norm_num)
  · norm_num [simulate_at_bat, adjusted_obp, defense_save_chance, AVG_WHIP,
      WHIP_COEFF, DEFENSE_DIVISOR]

/-- classes.py `get_starting_lineup` (lines 65-75): the whole roster when it
has fewer than 9 batters, otherwise the top 9 by overall rating (stable
descending sort, matching Python sorted with reverse=True). -/
def get_starting_lineup (batters : List Batter) : List Batter :=
  if batters.length < 9 then batters
  else (batters.mergeSort (fun a b => decide (b.overall ≤ a.overall))).take 9

/-- engine.py `play_half_inning` lines 144-146: the cyclic batter index
update, modulo the hardcoded constant 9. -/
def next_batter_index (i : ℕ) : ℕ := (i + 1) % 9

/-- The mutable state a half-inning works on: the local `bases` list and
`outs` counter of engine.py `play_half_inning` together with the engine
attributes it reads and writes (both scores and the batting team's
`current_batter_index`). -/
structure HalfState where
  bases : Bases
  outs : ℕ
  home_score : ℕ
  away_score : ℕ
  batter_index : ℕ
deriving DecidableEq

/-- One resolved plate appearance of engine.py `play_half_inning`
(lines 115-146): the at-bat result updates bases and the batting side score
through `apply_result`, an out increments `outs`, and the batter index always
advances cyclically modulo 9. -/
def half_step (is_home : Bool) (result : String) (st : HalfState) : HalfState :=
  let br := apply_result result st.bases
  { bases := br.1,
    outs := st.outs + (if result = ("OUT") then 1 else 0),
    home_score := st.home_score + (if is_home then br.2 else 0),
    away_score := st.away_score + (if is_home then 0 else br.2),
    batter_index := next_batter_index st.batter_index }

/-- engine.py `play_half_inning` (lines 91-146): the while loop over plate
appearances.  The at-bat results (the outcomes of `simulate_at_bat`, which
depend on the random draws) are supplied as a list; the loop stops when 3
outs are reached, when the mid-inning walk-off break fires (inning at least
9, home team batting, home strictly ahead), or when the supplied results are
exhausted. -/
def play_half_inning (is_home : Bool) (inning : ℕ) (results : List String)
    (st : HalfState) : HalfState :=
  match results with
  | [] => st
  | result :: rest =>
    if 3 ≤ st.outs then st
    else if 9 ≤ inning ∧ is_home = true ∧ st.home_score > st.away_score then st
    else play_half_inning is_home inning rest (half_step is_home result st)

/-- The engine state of engine.py `Engine` that the game loop touches:
scores, inning, per-team batter index and per-team pitcher fatigue. -/
structure GState where
  inning : ℕ
  home_score : ℕ
  away_score : ℕ
  home_idx : ℕ
  away_idx : ℕ
  home_pitcher_fatigue : ℚ
  away_pitcher_fatigue : ℚ
deriving DecidableEq

/-- engine.py `Engine.__init__` (lines 12-31): scores 0, inning 1, fatigue
0.0 for both pitchers; the lazily created `current_batter_index` attributes
start at 0. -/
def engine_init : GState :=
  { inning := 1, home_score := 0, away_score := 0, home_idx := 0,
    away_idx := 0, home_pitcher_fatigue := 0, away_pitcher_fatigue := 0 }

/-- A half-inning starts on fresh bases with no outs (engine.py lines
103-104), reading the current scores and the batting team's index. -/
def init_half (home_score away_score idx : ℕ) : HalfState :=
  { bases := (false, false, false), outs := 0, home_score := home_score,
    away_score := away_score, batter_index := idx }

/-- engine.py `play_inning` lines 66-73: the top half, away team batting. -/
def after_top (top : List String) (g : GState) : GState :=
  let h1 := play_half_inning false g.inning top
    (init_half g.home_score g.away_score g.away_idx)
  { g with home_score := h1.home_score, away_score := h1.away_score,
           away_idx := h1.batter_index }

/-- engine.py `play_inning` lines 78-85: the bottom half, home team batting. -/
def after_bottom (bottom : List String) (g : GState) : GState :=
  let h2 := play_half_inning true g.inning bottom
    (init_half g.home_score g.away_score g.home_idx)
  { g with home_score := h2.home_score, away_score := h2.away_score,
           home_idx := h2.batter_index }

/-- engine.py `play_inning` (lines 60-89): play the top half, then skip the
bottom half when the inning is at least 9 and the home team already leads,
else play the bottom half. -/
def play_inning (top bottom : List String) (g : GState) : GState :=
  if 9 ≤ g.inning ∧
      (after_top top g).home_score > (after_top top g).away_score then
    after_top top g
  else after_bottom bottom (after_top top g)

/-- C6 helper: whenever the walk-off condition holds, the bottom-half loop
returns its state unchanged, whatever results are still scheduled. -/
theorem play_half_inning_walkoff_fixed (inning : ℕ) (rs : List String)
    (st : HalfState) (h9 : 9 ≤ inning) (hlead : st.home_score > st.away_score) :
    play_half_inning true inning rs st = st := by
  cases rs with
  | nil => rfl
  | cons r rest =>
    unfold play_half_inning
    by_cases ho : 3 ≤ st.outs
    · rw [if_pos ho]
    · rw [if_neg ho, if_pos ⟨h9, rfl, hlead⟩]

/-- C6 helper: three or more outs also leave the loop state unchanged. -/
theorem play_half_inning_outs_fixed (is_home : Bool) (inning : ℕ)
    (rs : List String) (st : HalfState) (ho : 3 ≤ st.outs) :
    play_half_inning is_home inning rs st = st := by
  cases rs with
  | nil => rfl
  | cons r rest => unfold play_half_inning; rw [if_pos ho]

/-- C6 helper: when neither stopping condition holds, the loop resolves the
next scheduled at-bat. -/
theorem play_half_inning_cons (is_home : Bool) (inning : ℕ) (r : String)
    (rs : List String) (st : HalfState) (ho : ¬ 3 ≤ st.outs)
    (hc : ¬ (9 ≤ inning ∧ is_home = true ∧ st.home_score > st.away_score)) :
    play_half_inning is_home inning (r :: rs) st =
      play_half_inning is_home inning rs (half_step is_home r st) := by
  conv_lhs => unfold play_half_inning
  rw [if_neg ho, if_neg hc]

/-- C6 helper: once the bottom-half loop has reached a state with the home
team strictly ahead (in inning 9 or later) or with three outs, appending
further scheduled at-bats changes nothing. -/
theorem play_half_inning_append_stops (inning : ℕ) (rs1 rs2 : List String)
    (st : HalfState) (h9 : 9 ≤ inning)
    (hstop : 3 ≤ (play_half_inning true inning rs1 st).outs ∨
      (play_half_inning true inning rs1 st).home_score >
        (play_half_inning true inning rs1 st).away_score) :
    play_half_inning true inning (rs1 ++ rs2) st =
      play_half_inning true inning rs1 st := by
  induction rs1 generalizing st with
  | nil =>
    have h0 : play_half_inning true inning [] st = st := rfl
    rw [h0] at hstop
    rw [List.nil_append, h0]
    rcases hstop with ho | hl
    · exact play_half_inning_outs_fixed true inning rs2 st ho
    · exact play_half_inning_walkoff_fixed inning rs2 st h9 hl
  | cons r rest ih =>
    by_cases ho : 3 ≤ st.outs
    · exact (play_half_inning_outs_fixed true inning _ st ho).trans
        (play_half_inning_outs_fixed true inning (r :: rest) st ho).symm
    · by_cases hw : st.home_score > st.away_score
      · exact (play_half_inning_walkoff_fixed inning _ st h9 hw).trans
          (play_half_inning_walkoff_fixed inning (r :: rest) st h9 hw).symm
      · have hcond : ¬ (9 ≤ inning ∧ true = true ∧
            st.home_score > st.away_score) := by
          intro hc
          exact hw hc.2.2
        rw [List.cons_append,
          play_half_inning_cons true inning r (rest ++ rs2) st ho hcond,
          play_half_inning_cons true inning r rest st ho hcond]
        rw [play_half_inning_cons true inning r rest st ho hcond] at hstop
        exact ih (half_step true r st) hstop

/-- C6: in inning 9 or later the home team never bats while it strictly
leads: the bottom half is skipped entirely when home leads after the top
half; if the bottom half reaches three outs or home takes a strict lead, no
appended at-bat is ever resolved; from a mid-inning state with home already
strictly ahead the loop terminates immediately, consuming nothing; and a
tied score does not trigger either termination, at the inning boundary or
mid-inning. -/
theorem walk_off_rules :
    (∀ (top bottom : List String) (g : GState), 9 ≤ g.inning →
      (after_top top g).home_score > (after_top top g).away_score →
      play_inning top bottom g = after_top top g) ∧
    (∀ (inning : ℕ) (rs1 rs2 : List String) (st : HalfState), 9 ≤ inning →
      (play_half_inning true inning rs1 st).home_score >
        (play_half_inning true inning rs1 st).away_score →
      play_half_inning true inning (rs1 ++ rs2) st =
        play_half_inning true inning rs1 st) ∧
    (∀ (inning : ℕ) (rs : List String) (st : HalfState), 9 ≤ inning →
      st.home_score > st.away_score →
      play_half_inning true inning rs st = st) ∧
    (∀ (top bottom : List String) (g : GState),
      (after_top top g).home_score = (after_top top g).away_score →
      play_inning top bottom g = after_bottom bottom (after_top top g)) ∧
    (∀ (inning : ℕ) (r : String) (rs : List String) (st : HalfState),
      st.outs < 3 → st.home_score = st.away_score →
      play_half_inning true inning (r :: rs) st =
        play_half_inning true inning rs (half_step true r st)) := by
  refine ⟨?_, ?_, ?_, ?_, ?_⟩
  · intro top bottom g h9 hlead
    unfold play_inning
    rw [if_pos ⟨h9, hlead⟩]
  · intro inning rs1 rs2 st h9 hlead
    exact play_half_inning_append_stops inning rs1 rs2 st h9 (Or.inr hlead)
  · intro inning rs st h9 hlead
    exact play_half_inning_walkoff_fixed inning rs st h9 hlead
  · intro top bottom g htie
    unfold play_inning
    rw [if_neg]
    intro hc
    omega
  · intro inning r rs st ho htie
    refine play_half_inning_cons true inning r rs st (by omega) ?_
    intro hc
    omega

/-- C5 helper: a one-batter roster used as a concrete failing input. -/
def bat0 : Batter := { name := ("B"), obp := 0.3, ops := 0.7, overall := 50 }

/-- C5: the batter index advance is modulo the hardcoded 9 everywhere in the
half-inning driver, so with a one-batter lineup the second plate appearance
reads index 1, which is out of bounds for the length-1 lineup the roster
selector returns. -/
theorem batter_index_hardcoded_nine :
    (∀ (is_home : Bool) (result : String) (st : HalfState),
      (half_step is_home result st).batter_index =
        (st.batter_index + 1) % 9) ∧
    (get_starting_lineup [bat0]).length = 1 ∧
    next_batter_index 0 = 1 ∧
    ¬ next_batter_index 0 < (get_starting_lineup [bat0]).length := by
  refine ⟨fun _ _ _ => rfl, ?_, rfl, ?_⟩
  · rfl
  · decide

/-- engine.py `play` lines 53-56: after a full inning both pitcher fatigues
increase by 0.05 and the inning counter advances. -/
def end_of_inning (g : GState) : GState :=
  { g with home_pitcher_fatigue := g.home_pitcher_fatigue + 0.05,
           away_pitcher_fatigue := g.away_pitcher_fatigue + 0.05,
           inning := g.inning + 1 }

/-- engine.py `play` (lines 33-58): the main game loop.  `o inning is_home`
supplies the at-bat results of that half-inning (abstracting the random
draws), and the returned list logs, for each inning the loop played, the
inning number together with the home and away pitcher fatigue values the
loop passed into `play_inning` at that point.  The loop body breaks out
before playing anything once the inning exceeds 15, and every iteration
increments the inning, so from inning `i` at most `16 - i` iterations can
run: the fuel argument is instantiated with exactly that bound in `play`,
making the embedding total while reproducing the while loop exactly (fuel 0
occurs only at inning 16 or later, where the loop Python executes either
fails its guard or breaks immediately, returning the state unchanged). -/
def play_aux (o : ℕ → Bool → List String) : ℕ → GState → GState × List (ℕ × ℚ × ℚ)
  | 0, g => (g, [])
  | fuel + 1, g =>
    if g.inning ≤ 9 ∨ g.away_score = g.home_score then
      if 15 < g.inning then (g, [])
      else
        let g1 := play_inning (o g.inning false) (o g.inning true) g
        let rest := play_aux o fuel (end_of_inning g1)
        (rest.1, (g.inning, g.home_pitcher_fatigue, g.away_pitcher_fatigue) :: rest.2)
    else (g, [])

/-- engine.py `play`: the game loop run from state `g`, with the exact fuel
bound `16 - g.inning` (see `play_aux`). -/
def play (o : ℕ → Bool → List String) (g : GState) : GState × List (ℕ × ℚ × ℚ) :=
  play_aux o (16 - g.inning) g

/-- The inning numbers the game loop actually played, in order. -/
def innings_played (o : ℕ → Bool → List String) (g : GState) : List ℕ :=
  (play o g).2.map (fun e => e.1)

/-- C7 helper: `play_inning` never touches the inning counter or the
fatigue attributes. -/
theorem play_inning_preserves (top bottom : List String) (g : GState) :
    (play_inning top bottom g).inning = g.inning ∧
    (play_inning top bottom g).home_pitcher_fatigue = g.home_pitcher_fatigue ∧
    (play_inning top bottom g).away_pitcher_fatigue = g.away_pitcher_fatigue := by
  unfold play_inning after_top after_bottom
  split <;> exact ⟨rfl, rfl, rfl⟩

/-- C7 helper: every inning the loop logs lies between the starting inning
and the hard cap 15. -/
theorem play_aux_entry_bounds (o : ℕ → Bool → List String) (fuel : ℕ)
    (g : GState) :
    ∀ e ∈ (play_aux o fuel g).2, g.inning ≤ e.1 ∧ e.1 ≤ 15 := by
  induction fuel generalizing g with
  | zero => intro e he; simp [play_aux] at he
  | succ fuel ih =>
    intro e he
    unfold play_aux at he
    split at he
    · split at he
      · simp at he
      · simp only [List.mem_cons] at he
        rcases he with he | he
        · subst he
          constructor
          · exact le_refl _
          · omega
        · have hrec := ih (end_of_inning (play_inning (o g.inning false)
            (o g.inning true) g)) e he
          have hinn : (end_of_inning (play_inning (o g.inning false)
              (o g.inning true) g)).inning = g.inning + 1 := by
            show (play_inning (o g.inning false) (o g.inning true) g).inning + 1 =
              g.inning + 1
            rw [(play_inning_preserves _ _ g).1]
          rw [hinn] at hrec
          omega
    · simp at he

/-- C7: the game loop plays another inning exactly when the inning number is
at most 9 or the scores are tied, subject to the unconditional 15-inning
hard cap: no inning beyond the 15th is ever played, and while the score
stays tied the loop keeps playing innings (into the 10th and beyond) up to
that cap. -/
theorem game_loop_schedule :
    (∀ (o : ℕ → Bool → List String) (g : GState) (i : ℕ),
      i ∈ innings_played o g → g.inning ≤ i ∧ i ≤ 15) ∧
    (∀ (o : ℕ → Bool → List String) (g : GState),
      g.inning ∈ innings_played o g ↔
        ((g.inning ≤ 9 ∨ g.away_score = g.home_score) ∧ g.inning ≤ 15)) ∧
    (∀ (o : ℕ → Bool → List String) (g : GState),
      g.away_score = g.home_score → g.inning ≤ 15 →
      g.inning ∈ innings_played o g) := by
  have hmem : ∀ (o : ℕ → Bool → List String) (g : GState),
      g.inning ∈ innings_played o g ↔
        ((g.inning ≤ 9 ∨ g.away_score = g.home_score) ∧ g.inning ≤ 15) := by
    intro o g
    unfold innings_played play
    by_cases h16 : g.inning ≤ 15
    · obtain ⟨k, hk⟩ : ∃ k, 16 - g.inning = k + 1 := ⟨15 - g.inning, by omega⟩
      rw [hk]
      unfold play_aux
      by_cases hguard : g.inning ≤ 9 ∨ g.away_score = g.home_score
      · rw [if_pos hguard, if_neg (by omega : ¬ 15 < g.inning)]
        simp only [List.map_cons, List.mem_cons]
        constructor
        · intro _
          exact ⟨hguard, h16⟩
        · intro _
          exact Or.inl trivial
      · rw [if_neg hguard]
        simp only [List.map_nil, List.not_mem_nil, false_iff]
        intro hc
        exact hguard hc.1
    · have hk : 16 - g.inning = 0 := by omega
      rw [hk]
      simp only [play_aux, List.map_nil, List.not_mem_nil, false_iff]
      intro hc
      omega
  refine ⟨?_, hmem, ?_⟩
  · intro o g i hi
    unfold innings_played play at hi
    obtain ⟨e, he, rfl⟩ := List.mem_map.mp hi
    exact play_aux_entry_bounds o (16 - g.inning) g e he
  · intro o g htie h15
    exact (hmem o g).mpr ⟨Or.inr htie, h15⟩

/-- C8 helper: if the loop starts at an inning of at least 1 with both
fatigue attributes equal to 0.05 times the completed innings, then every
logged fatigue pair follows that schedule and the final state still does. -/
theorem play_aux_fatigue (o : ℕ → Bool → List String) (fuel : ℕ) (g : GState)
    (h1 : 1 ≤ g.inning)
    (hh : g.home_pitcher_fatigue = ((g.inning - 1 : ℕ) : ℚ) * 0.05)
    (ha : g.away_pitcher_fatigue = ((g.inning - 1 : ℕ) : ℚ) * 0.05) :
    (∀ e ∈ (play_aux o fuel g).2,
      e.2.1 = ((e.1 - 1 : ℕ) : ℚ) * 0.05 ∧
      e.2.2 = ((e.1 - 1 : ℕ) : ℚ) * 0.05 ∧ 1 ≤ e.1) ∧
    1 ≤ (play_aux o fuel g).1.inning ∧
    (play_aux o fuel g).1.home_pitcher_fatigue =
      (((play_aux o fuel g).1.inning - 1 : ℕ) : ℚ) * 0.05 ∧
    (play_aux o fuel g).1.away_pitcher_fatigue =
      (((play_aux o fuel g).1.inning - 1 : ℕ) : ℚ) * 0.05 := by
  induction fuel generalizing g with
  | zero =>
    refine ⟨?_, h1, hh, ha⟩
    intro e he
    simp [play_aux] at he
  | succ fuel ih =>
    unfold play_aux
    split
    · split
      · refine ⟨?_, h1, hh, ha⟩
        intro e he
        simp at he
      · set g1 := play_inning (o g.inning false) (o g.inning true) g with hg1
        have hpres := play_inning_preserves (o g.inning false) (o g.inning true) g
        have hg2i : (end_of_inning g1).inning = g.inning + 1 := by
          show g1.inning + 1 = g.inning + 1
          rw [hpres.1]
        have hcast : ((g.inning - 1 : ℕ) : ℚ) * 0.05 + 0.05 =
            ((g.inning + 1 - 1 : ℕ) : ℚ) * 0.05 := by
          rw [Nat.cast_sub h1]
          push_cast
          ring
        have hg2h : (end_of_inning g1).home_pitcher_fatigue =
            (((end_of_inning g1).inning - 1 : ℕ) : ℚ) * 0.05 := by
          show g1.home_pitcher_fatigue + 0.05 = _
          rw [hpres.2.1, hh, hg2i, hcast]
        have hg2a : (end_of_inning g1).away_pitcher_fatigue =
            (((end_of_inning g1).inning - 1 : ℕ) : ℚ) * 0.05 := by
          show g1.away_pitcher_fatigue + 0.05 = _
          rw [hpres.2.2, ha, hg2i, hcast]
        have hrec := ih (end_of_inning g1) (by omega) hg2h hg2a
        refine ⟨?_, hrec.2⟩
        intro e he
        simp only [List.mem_cons] at he
        rcases he with he | he
        · subst he
          exact ⟨hh, ha, h1⟩
        · exact hrec.1 e he
    · refine ⟨?_, h1, hh, ha⟩
      intro e he
      simp at he

/-- C8: both pitcher fatigue attributes start the game at 0; the fatigue the
loop passes into inning `i` is exactly 0.05 times the `i - 1` completed
innings (so it is what had accumulated at that inning's start), it never
decreases across the logged innings, it increases by exactly 0.05 from one
inning to the next, and the final state keeps the same schedule. -/
theorem fatigue_schedule :
    engine_init.home_pitcher_fatigue = 0 ∧
    engine_init.away_pitcher_fatigue = 0 ∧
    (∀ (o : ℕ → Bool → List String) (e : ℕ × ℚ × ℚ),
      e ∈ (play o engine_init).2 →
      e.2.1 = ((e.1 - 1 : ℕ) : ℚ) * 0.05 ∧
      e.2.2 = ((e.1 - 1 : ℕ) : ℚ) * 0.05) ∧
    (∀ (o : ℕ → Bool → List String) (e1 e2 : ℕ × ℚ × ℚ),
      e1 ∈ (play o engine_init).2 → e2 ∈ (play o engine_init).2 →
      e1.1 ≤ e2.1 → e1.2.1 ≤ e2.2.1 ∧ e1.2.2 ≤ e2.2.2) ∧
    (∀ (o : ℕ → Bool → List String) (e1 e2 : ℕ × ℚ × ℚ),
      e1 ∈ (play o engine_init).2 → e2 ∈ (play o engine_init).2 →
      e2.1 = e1.1 + 1 →
      e2.2.1 = e1.2.1 + 0.05 ∧ e2.2.2 = e1.2.2 + 0.05) ∧
    (∀ (o : ℕ → Bool → List String),
      (play o engine_init).1.home_pitcher_fatigue =
        (((play o engine_init).1.inning - 1 : ℕ) : ℚ) * 0.05 ∧
      (play o engine_init).1.away_pitcher_fatigue =
        (((play o engine_init).1.inning - 1 : ℕ) : ℚ) * 0.05) := by
  have base : ∀ o : ℕ → Bool → List String,
      (∀ e ∈ (play o engine_init).2,
        e.2.1 = ((e.1 - 1 : ℕ) : ℚ) * 0.05 ∧
        e.2.2 = ((e.1 - 1 : ℕ) : ℚ) * 0.05 ∧ 1 ≤ e.1) ∧
      1 ≤ (play o engine_init).1.inning ∧
      (play o engine_init).1.home_pitcher_fatigue =
        (((play o engine_init).1.inning - 1 : ℕ) : ℚ) * 0.05 ∧
      (play o engine_init).1.away_pitcher_fatigue =
        (((play o engine_init).1.inning - 1 : ℕ) : ℚ) * 0.05 := by
    intro o
    exact play_aux_fatigue o (16 - engine_init.inning) engine_init
      (le_refl 1) (by norm_num [engine_init]) (by norm_num [engine_init])
  have hmul : ∀ a b : ℕ, a ≤ b → ((a : ℚ)) * 0.05 ≤ ((b : ℚ)) * 0.05 := by
    intro a b hab
    have : (a : ℚ) ≤ (b : ℚ) := Nat.cast_le.mpr hab
    nlinarith
  refine ⟨rfl, rfl, ?_, ?_, ?_, fun o => ⟨((base o).2.2.1), ((base o).2.2.2)⟩⟩
  · intro o e he
    exact ⟨((base o).1 e he).1, ((base o).1 e he).2.1⟩
  · intro o e1 e2 h1 h2 hle
    obtain ⟨hf1, hg1, _⟩ := (base o).1 e1 h1
    obtain ⟨hf2, hg2, _⟩ := (base o).1 e2 h2
    rw [hf1, hf2, hg1, hg2]
    constructor <;> exact hmul _ _ (Nat.sub_le_sub_right hle 1)
  · intro o e1 e2 h1 h2 hsucc
    obtain ⟨hf1, hg1, hone⟩ := (base o).1 e1 h1
    obtain ⟨hf2, hg2, _⟩ := (base o).1 e2 h2
    rw [hf1, hf2, hg1, hg2, hsucc]
    have : ((e1.1 + 1 - 1 : ℕ) : ℚ) = ((e1.1 - 1 : ℕ) : ℚ) + 1 := by
      rw [Nat.add_sub_cancel, Nat.cast_sub hone]
      push_cast
      ring
    rw [this]
    constructor <;> ring

/-- classes.py `get_starting_pitcher` (lines 48-62): `None` on an empty
pool, otherwise one of the top 3 pitchers by descending overall rating (the
uniformly random `random.choice` is modelled by an arbitrary index `choice`,
reduced modulo the candidate count). -/
def get_starting_pitcher (pitchers : List Pitcher) (choice : ℕ) :
    Option Pitcher :=
  match pitchers with
  | [] => none
  | p :: ps =>
    let sorted_pitchers :=
      (p :: ps).mergeSort (fun a b => decide (b.overall ≤ a.overall))
    let top3_pitchers := sorted_pitchers.take 3
    some (top3_pitchers.getD (choice % top3_pitchers.length) p)

/-- project.py `main` steps 6-8 (lines 67-79): the starting pitchers are
selected and the Engine is then constructed and run unconditionally; the
value returned is the pitcher pair handed to the Engine (`none` inside the
pair standing for Python `None`).  A fail-fast driver would return `none`
overall (no engine started) when a pitcher is missing; the source has no
such check. -/
def main_engine_start (away_pitchers home_pitchers : List Pitcher)
    (ca ch : ℕ) : Option (Option Pitcher × Option Pitcher) :=
  let away_pitcher := get_starting_pitcher away_pitchers ca
  let home_pitcher := get_starting_pitcher home_pitchers ch
  some (home_pitcher, away_pitcher)

/-- C9: the roster selector returns the no-pitcher signal exactly on an
empty pool and otherwise an element of the pool drawn from the top 3 by
descending overall rating; but the driver starts the engine even when both
selections come back empty, instead of failing fast. -/
theorem pitcher_selection_no_fail_fast :
    (∀ (ps : List Pitcher) (c : ℕ),
      get_starting_pitcher ps c = none ↔ ps = []) ∧
    (∀ (ps : List Pitcher) (c : ℕ), ps ≠ [] →
      ∃ p, get_starting_pitcher ps c = some p ∧
        p ∈ (ps.mergeSort (fun a b => decide (b.overall ≤ a.overall))).take 3 ∧
        p ∈ ps) ∧
    main_engine_start [] [] 0 0 = some (none, none) := by
  refine ⟨?_, ?_, rfl⟩
  · intro ps c
    cases ps with
    | nil => simp [get_starting_pitcher]
    | cons p rest => simp [get_starting_pitcher]
  · intro ps c hne
    cases ps with
    | nil => exact absurd rfl hne
    | cons p rest =>
      have hlen : 0 < (((p :: rest).mergeSort
          (fun a b => decide (b.overall ≤ a.overall))).take 3).length := by
        rw [List.length_take, List.length_mergeSort]
        simp
      have hidx : c % (((p :: rest).mergeSort
          (fun a b => decide (b.overall ≤ a.overall))).take 3).length <
          (((p :: rest).mergeSort
          (fun a b => decide (b.overall ≤ a.overall))).take 3).length :=
        Nat.mod_lt _ hlen
      refine ⟨_, rfl, ?_⟩
      rw [List.getD_eq_getElem _ _ hidx]
      have hmem := List.getElem_mem hidx
      refine ⟨hmem, ?_⟩
      have hsub := List.take_subset 3 ((p :: rest).mergeSort
        (fun a b => decide (b.overall ≤ a.overall)))
      have hperm := List.mergeSort_perm (p :: rest)
        (fun a b => decide (b.overall ≤ a.overall))
      exact hperm.mem_iff.mp (hsub hmem)

end MLBReplay
